import Mathlib

/-!
Verification of the `RemoteSource` plugin registry
(`pythonz/apps/integration/base.py`).

The registry is a process-wide Python `defaultdict(dict)` keyed first by
realm, then by alias, holding source *classes*.  We embed it shallowly:

* a Python `dict` (which preserves insertion order and replaces values
  in place on key collision) becomes an association list together with
  `dictGet` / `dictSet`;
* a source class becomes a `SourceDef` record carrying the class-level
  attributes (`realm`, `active`, `alias`, `title`), a numeric identity
  `clsId` distinguishing distinct class objects, and `fetchImpl`, which
  is `none` exactly when the class inherits `RemoteSource.fetch_list`
  unchanged (so calling it raises `NotImplementedError`);
* `__init_subclass__` becomes `registerSubclass`;
* the `defaultdict` read in `get_sources` (which silently materialises
  an empty bucket) becomes the `touchRealm` step of `Reachable`;
* the `models.TextChoices('Source', [...])` construction wrapped in
  `enum.unique` inside `get_enum` becomes `get_enum`, returning `none`
  when the derived member names collide.
-/

/-- Outcome of a concrete `fetch_list` implementation: either a list of
records (each a string-keyed mapping, embedded as an association list) or
some runtime failure of the implementation's own I/O. -/
inductive FetchImpl where
  | ok (records : List (List (String × String)))
  | fail
deriving DecidableEq, Repr

/-- A source class: the class-level attributes of a `RemoteSource`
subclass, plus `clsId` (class-object identity) and `fetchImpl`
(`none` when the class does not override `fetch_list`). -/
structure SourceDef where
  clsId : Nat
  realm : String
  active : Bool
  «alias» : String
  title : String
  fetchImpl : Option FetchImpl
deriving DecidableEq, Repr

/-- One realm bucket: `registry[realm]`, a Python dict from alias to
source class. -/
abbrev Bucket := List (String × SourceDef)

/-- The registry: `RemoteSource.registry`, a dict from realm to bucket. -/
abbrev Registry := List (String × Bucket)

/-- Python `d.get(k)`: first (and, for dicts, only) binding of `k`. -/
def dictGet {β : Type} : List (String × β) → String → Option β
  | [], _ => none
  | (k', v) :: rest, k => if k' = k then some v else dictGet rest k

/-- Python `d[k] = v`: replace the binding of `k` in place if present,
otherwise append it (dicts preserve insertion order). -/
def dictSet {β : Type} : List (String × β) → String → β → List (String × β)
  | [], k, v => [(k, v)]
  | (k', v') :: rest, k, v =>
      if k' = k then (k, v) :: rest else (k', v') :: dictSet rest k v

/-- The class body of `RemoteSource` itself: empty `realm`, `active`
true, empty `alias`, empty `title`, and no `fetch_list` override. -/
def RemoteSourceBase : SourceDef :=
  { clsId := 0, realm := "", active := true, «alias» := "", title := "",
    fetchImpl := none }

/-- `RemoteSource.__init_subclass__`: if `cls.alias` is truthy
(non-empty), store `registry[cls.realm][alias] = cls`; the realm is not
inspected.  Otherwise the registry is untouched. -/
def registerSubclass (reg : Registry) (cls : SourceDef) : Registry :=
  if cls.«alias» = "" then reg
  else
    dictSet reg cls.realm
      (dictSet ((dictGet reg cls.realm).getD []) cls.«alias» cls)

/-- Reading `registry[realm]` on a `defaultdict(dict)` materialises an
empty bucket when the realm is absent (new keys append at the end). -/
def touchRealm (reg : Registry) (realm : String) : Registry :=
  match dictGet reg realm with
  | some _ => reg
  | none => reg ++ [(realm, [])]

/-- `RemoteSource.get_sources`: the bucket for the realm (the empty dict
when the realm has no bucket, which is what the defaultdict hands back). -/
def get_sources (reg : Registry) (realm : String) : Bucket :=
  (dictGet reg realm).getD []

/-- `RemoteSource.get_source`: `cls.get_sources().get(alias)`. -/
def get_source (reg : Registry) (realm : String) (a : String) :
    Option SourceDef :=
  dictGet (get_sources reg realm) a

/-- One member of the enumeration built by `get_enum`: symbolic name,
stored value and human-readable label. -/
structure EnumMember where
  name : String
  value : String
  label : String
deriving DecidableEq, Repr

/-- `RemoteSource.get_enum`: build a `TextChoices` member
`(alias, (alias, source_cls.title))` per bucket entry; `enum.unique` (and
the functional `Enum` API itself) rejects a duplicated symbolic name, which
we render as `none`. -/
def get_enum (reg : Registry) (realm : String) : Option (List EnumMember) :=
  let members : List EnumMember :=
    (get_sources reg realm).map
      (fun p => { name := p.1, value := p.1, label := p.2.title })
  if (members.map EnumMember.name).Nodup then some members else none

/-- Result of calling `fetch_list` on a class. -/
inductive FetchResult where
  | notImplemented
  | failed
  | fetched (records : List (List (String × String)))
deriving DecidableEq, Repr

/-- `RemoteSource.fetch_list`: the base body raises
`NotImplementedError`; a class with a concrete override runs that
override instead (whose own success or failure is its own business). -/
def fetch_list (cls : SourceDef) : FetchResult :=
  match cls.fetchImpl with
  | none => .notImplemented
  | some .fail => .failed
  | some (.ok rs) => .fetched rs

/-- Declaring `class S(P): pass`: every class attribute, `fetch_list`
included, is inherited from the parent; only the class object itself is
new. -/
def inheritNoOverride (parent : SourceDef) (newId : Nat) : SourceDef :=
  { parent with clsId := newId }

/-- The registry produced by a program whose startup declares the given
subclasses in order, starting from the empty `defaultdict(dict)`. -/
def buildRegistry (decls : List SourceDef) : Registry :=
  decls.foldl registerSubclass []

/-- Registry states reachable in a program run: the initial empty
`defaultdict(dict)`, grown by subclass declarations and by defaultdict
reads. -/
inductive Reachable : Registry → Prop where
  | init : Reachable []
  | register {reg} (cls : SourceDef) :
      Reachable reg → Reachable (registerSubclass reg cls)
  | touch {reg} (realm : String) :
      Reachable reg → Reachable (touchRealm reg realm)

/-! ### Dictionary lemmas -/

theorem dictGet_dictSet {β : Type} (d : List (String × β)) (k k' : String)
    (v : β) :
    dictGet (dictSet d k v) k' = if k' = k then some v else dictGet d k' := by
  induction d with
  | nil =>
    by_cases h : k' = k
    · subst h; simp [dictSet, dictGet]
    · simp [dictSet, dictGet, h, Ne.symm h]
  | cons hd tl ih =>
    obtain ⟨k₀, v₀⟩ := hd
    by_cases h0 : k₀ = k
    · subst h0
      by_cases h : k' = k₀
      · simp [dictSet, dictGet, h]
      · simp [dictSet, dictGet, h, Ne.symm h]
    · by_cases h : k' = k₀
      · have hne : ¬ k' = k := fun hk => h0 ((h.symm.trans hk))
        simp [dictSet, dictGet, h0, h, hne]
      · simp [dictSet, dictGet, h0, h, Ne.symm h, ih]

theorem dictGet_append {β : Type} (d e : List (String × β)) (k : String) :
    dictGet (d ++ e) k = (dictGet d k).orElse (fun _ => dictGet e k) := by
  induction d with
  | nil => simp [dictGet]
  | cons hd tl ih =>
    obtain ⟨k₀, v₀⟩ := hd
    by_cases h : k₀ = k <;> simp [dictGet, h, ih]

theorem dictGet_mem {β : Type} {d : List (String × β)} {k : String} {v : β}
    (h : dictGet d k = some v) : (k, v) ∈ d := by
  induction d with
  | nil => simp [dictGet] at h
  | cons hd tl ih =>
    obtain ⟨k₀, v₀⟩ := hd
    by_cases h0 : k₀ = k
    · subst h0
      simp [dictGet] at h
      simp [h]
    · simp [dictGet, h0] at h
      exact List.mem_cons_of_mem _ (ih h)

theorem dictSet_keys {β : Type} (d : List (String × β)) (k : String) (v : β) :
    (dictSet d k v).map Prod.fst =
      if k ∈ d.map Prod.fst then d.map Prod.fst
      else d.map Prod.fst ++ [k] := by
  induction d with
  | nil => simp [dictSet]
  | cons hd tl ih =>
    obtain ⟨k₀, v₀⟩ := hd
    by_cases h0 : k₀ = k
    · subst h0
      simp [dictSet]
    · by_cases hk : k ∈ tl.map Prod.fst
      · simp [dictSet, h0, ih, hk, Ne.symm h0]
      · simp [dictSet, h0, ih, hk, Ne.symm h0]

theorem dictSet_keys_nodup {β : Type} (d : List (String × β)) (k : String)
    (v : β) (h : (d.map Prod.fst).Nodup) :
    ((dictSet d k v).map Prod.fst).Nodup := by
  rw [dictSet_keys]
  by_cases hk : k ∈ d.map Prod.fst
  · simpa [hk] using h
  · rw [if_neg hk]
    refine List.Nodup.append h (List.nodup_singleton k) ?_
    intro x hx hx1
    rw [List.mem_singleton] at hx1
    exact hk (hx1 ▸ hx)

theorem countP_key_of_get {β : Type} (d : List (String × β)) (k : String)
    (c : β) (hn : (d.map Prod.fst).Nodup) (hg : dictGet d k = some c) :
    d.countP (fun p => p.1 == k) = 1 := by
  induction d with
  | nil => simp [dictGet] at hg
  | cons hd tl ih =>
    obtain ⟨k₀, v₀⟩ := hd
    rw [List.map_cons, List.nodup_cons] at hn
    obtain ⟨hn1, hn2⟩ := hn
    by_cases h0 : k₀ = k
    · subst h0
      have hz : tl.countP (fun p => p.1 == k₀) = 0 := by
        refine List.countP_eq_zero.mpr (fun a ha => ?_)
        simp only [beq_iff_eq]
        intro he
        have hmem : a.1 ∈ tl.map Prod.fst := List.mem_map_of_mem Prod.fst ha
        rw [he] at hmem
        exact hn1 hmem
      simp [List.countP_cons, hz]
    · simp [dictGet, h0] at hg
      simp [List.countP_cons, h0, ih hn2 hg]

/-! ### Registry lemmas -/

theorem get_sources_register (reg : Registry) (cls : SourceDef)
    (h : cls.«alias» ≠ "") (realm : String) :
    get_sources (registerSubclass reg cls) realm =
      if realm = cls.realm then
        dictSet (get_sources reg cls.realm) cls.«alias» cls
      else get_sources reg realm := by
  unfold registerSubclass
  rw [if_neg h]
  unfold get_sources
  rw [dictGet_dictSet]
  by_cases hr : realm = cls.realm
  · simp [hr]
  · simp [hr]

theorem get_source_register (reg : Registry) (cls : SourceDef)
    (h : cls.«alias» ≠ "") (realm a : String) :
    get_source (registerSubclass reg cls) realm a =
      if realm = cls.realm ∧ a = cls.«alias» then some cls
      else get_source reg realm a := by
  unfold get_source
  rw [get_sources_register reg cls h]
  by_cases hr : realm = cls.realm
  · rw [if_pos hr, dictGet_dictSet]
    by_cases ha : a = cls.«alias»
    · simp [hr, ha]
    · simp [hr, ha]
  · simp [hr]

theorem registerSubclass_of_empty (reg : Registry) (cls : SourceDef)
    (h : cls.«alias» = "") : registerSubclass reg cls = reg := by
  unfold registerSubclass
  rw [if_pos h]

theorem get_sources_touch (reg : Registry) (realm realm' : String) :
    get_sources (touchRealm reg realm) realm' = get_sources reg realm' := by
  unfold touchRealm
  cases hg : dictGet reg realm with
  | some b => rfl
  | none =>
    unfold get_sources
    rw [dictGet_append]
    cases hg' : dictGet reg realm' with
    | some b => simp
    | none =>
      by_cases hr : realm = realm' <;> simp [dictGet, hr]

theorem get_source_touch (reg : Registry) (realm realm' a : String) :
    get_source (touchRealm reg realm) realm' a = get_source reg realm' a := by
  unfold get_source
  rw [get_sources_touch]

/-! ### Invariants of reachable registries -/

/-- Every realm bucket of the registry has pairwise-distinct alias keys. -/
def BucketsNodup (reg : Registry) : Prop :=
  ∀ realm, ((get_sources reg realm).map Prod.fst).Nodup

/-- Every stored class sits under its own alias, and that alias is
non-empty. -/
def StoredWF (reg : Registry) : Prop :=
  ∀ realm a c, get_source reg realm a = some c → c.«alias» = a ∧ a ≠ ""

theorem reachable_bucketsNodup {reg : Registry} (h : Reachable reg) :
    BucketsNodup reg := by
  induction h with
  | init => intro realm; simp [get_sources, dictGet]
  | register cls _ ih =>
    intro realm
    by_cases ha : cls.«alias» = ""
    · rw [registerSubclass_of_empty _ _ ha]
      exact ih realm
    · rw [get_sources_register _ _ ha]
      by_cases hr : realm = cls.realm
      · rw [if_pos hr]
        exact dictSet_keys_nodup _ _ _ (ih cls.realm)
      · rw [if_neg hr]
        exact ih realm
  | touch realm' _ ih =>
    intro realm
    rw [get_sources_touch]
    exact ih realm

theorem reachable_storedWF {reg : Registry} (h : Reachable reg) :
    StoredWF reg := by
  induction h with
  | init => intro realm a c hc; simp [get_source, get_sources, dictGet] at hc
  | register cls _ ih =>
    intro realm a c hc
    by_cases ha : cls.«alias» = ""
    · rw [registerSubclass_of_empty _ _ ha] at hc
      exact ih realm a c hc
    · rw [get_source_register _ _ ha] at hc
      by_cases hra : realm = cls.realm ∧ a = cls.«alias»
      · rw [if_pos hra] at hc
        have hcc : c = cls := by
          injection hc with h'
          exact h'.symm
        subst hcc
        exact ⟨hra.2.symm, fun he => ha (hra.2 ▸ he)⟩
      · rw [if_neg hra] at hc
        exact ih realm a c hc
  | touch realm' _ ih =>
    intro realm a c hc
    rw [get_source_touch] at hc
    exact ih realm a c hc

/-! ### Concrete example sources (spec scenario of section 8) -/

/-- Example concrete source: `SourceA(realm="vacancy", alias="hh",
title="HeadHunter")`, with a concrete `fetch_list` override. -/
def SourceA : SourceDef :=
  { clsId := 1, realm := "vacancy", active := true, «alias» := "hh",
    title := "HeadHunter", fetchImpl := some (.ok []) }

/-- Example concrete source: `SourceB(realm="vacancy", alias="lnk",
title="LinkedIn")`. -/
def SourceB : SourceDef :=
  { clsId := 2, realm := "vacancy", active := true, «alias» := "lnk",
    title := "LinkedIn", fetchImpl := some (.ok []) }

/-- A concrete source that declares a non-empty alias but leaves `realm`
at the inherited empty string. -/
def SourceNoRealm : SourceDef :=
  { clsId := 3, realm := "", active := true, «alias» := "x",
    title := "X", fetchImpl := some (.ok []) }

/-- An abstract intermediate: common fetch logic, empty alias. -/
def SourceNoAlias : SourceDef :=
  { clsId := 4, realm := "vacancy", active := true, «alias» := "",
    title := "Shared base", fetchImpl := some (.ok []) }

/-- A second concrete source colliding with `SourceA` on
(realm, alias) = ("vacancy", "hh"). -/
def SourceA2 : SourceDef :=
  { clsId := 5, realm := "vacancy", active := true, «alias» := "hh",
    title := "HeadHunter v2", fetchImpl := some (.ok []) }

/-- The registry after declaring `SourceA` then `SourceB`. -/
def vacancyRegistry : Registry :=
  registerSubclass (registerSubclass [] SourceA) SourceB

theorem vacancyRegistry_reachable : Reachable vacancyRegistry :=
  (Reachable.init.register SourceA).register SourceB

/-! ### Claim theorems -/

/-- C1: immediately after a concrete source definition with a non-empty
alias is declared for realm R, `get_sources(R)` contains an entry mapping
that alias to that definition, and `get_source(R, alias)` returns that
exact definition (the class itself). -/
theorem c1_registered_after_declaration (reg : Registry) (cls : SourceDef)
    (h : cls.«alias» ≠ "") :
    (cls.«alias», cls) ∈ get_sources (registerSubclass reg cls) cls.realm ∧
    get_source (registerSubclass reg cls) cls.realm cls.«alias» = some cls := by
  have hs := get_source_register reg cls h cls.realm cls.«alias»
  rw [if_pos ⟨rfl, rfl⟩] at hs
  exact ⟨dictGet_mem hs, hs⟩

theorem c1_registered_after_declaration_witness :
    SourceA.«alias» ≠ "" ∧
    ((SourceA.«alias», SourceA) ∈
        get_sources (registerSubclass [] SourceA) SourceA.realm ∧
      get_source (registerSubclass [] SourceA) SourceA.realm SourceA.«alias» =
        some SourceA) :=
  ⟨by decide, c1_registered_after_declaration [] SourceA (by decide)⟩

/-- C2: registering two definitions in sequence with the same
(realm, alias) raises no error, `get_source` afterwards returns the most
recently declared definition, and the realm bucket holds exactly one
entry for that alias. -/
theorem c2_last_write_wins (reg : Registry) (d1 d2 : SourceDef)
    (hreach : Reachable reg) (h1 : d1.«alias» ≠ "")
    (ha : d2.«alias» = d1.«alias») (hr : d2.realm = d1.realm) :
    get_source (registerSubclass (registerSubclass reg d1) d2) d1.realm
        d1.«alias» = some d2 ∧
    (get_sources (registerSubclass (registerSubclass reg d1) d2)
        d1.realm).countP (fun p => p.1 == d1.«alias») = 1 := by
  have h2 : d2.«alias» ≠ "" := by rw [ha]; exact h1
  have hs := get_source_register (registerSubclass reg d1) d2 h2 d1.realm
    d1.«alias»
  rw [if_pos ⟨hr.symm, ha.symm⟩] at hs
  have hreach2 :
      Reachable (registerSubclass (registerSubclass reg d1) d2) :=
    (hreach.register d1).register d2
  have hnd := reachable_bucketsNodup hreach2 d1.realm
  exact ⟨hs, countP_key_of_get _ _ d2 hnd hs⟩

theorem c2_last_write_wins_witness :
    get_source (registerSubclass (registerSubclass [] SourceA) SourceA2)
        SourceA.realm SourceA.«alias» = some SourceA2 ∧
    (get_sources (registerSubclass (registerSubclass [] SourceA) SourceA2)
        SourceA.realm).countP (fun p => p.1 == SourceA.«alias») = 1 :=
  c2_last_write_wins [] SourceA SourceA2 Reachable.init (by decide)
    (by decide) (by decide)

/-- C3 counterexample: a definition supplying a non-empty alias but an
empty realm IS registered — the registration hook never inspects the
realm, so the class lands in the bucket of the empty-string realm and the
registry does not stay empty. -/
theorem c3_counterexample_empty_realm_registered :
    get_source (registerSubclass [] SourceNoRealm) "" "x" =
      some SourceNoRealm ∧
    registerSubclass [] SourceNoRealm ≠ [] := by
  constructor
  · decide
  · decide

/-- C3 amended: a source definition is registered at declaration time
exactly when its alias is non-empty; the realm is never checked, so a
definition with a non-empty alias and an empty realm is still registered,
under the empty-string realm. -/
theorem c3_amended_alias_only_gate (reg : Registry) (cls : SourceDef) :
    (cls.«alias» = "" → registerSubclass reg cls = reg) ∧
    (cls.«alias» ≠ "" →
      get_source (registerSubclass reg cls) cls.realm cls.«alias» =
        some cls) := by
  refine ⟨registerSubclass_of_empty reg cls, fun h => ?_⟩
  have hs := get_source_register reg cls h cls.realm cls.«alias»
  rw [if_pos ⟨rfl, rfl⟩] at hs
  exact hs

theorem c3_amended_alias_only_gate_witness :
    get_source (registerSubclass [] SourceNoRealm) SourceNoRealm.realm
        SourceNoRealm.«alias» = some SourceNoRealm :=
  (c3_amended_alias_only_gate [] SourceNoRealm).2 (by decide)

/-- C4: declaring a definition with an empty alias changes nothing — no
registration, no error — so no query result changes; moreover in any
reachable registry every definition returned by `get_source` has a
non-empty alias, so an alias-less definition never appears in lookups. -/
theorem c4_empty_alias_never_appears (reg : Registry) (cls : SourceDef)
    (hreach : Reachable reg) (h : cls.«alias» = "") :
    registerSubclass reg cls = reg ∧
    (∀ realm, get_sources (registerSubclass reg cls) realm =
      get_sources reg realm) ∧
    (∀ realm a, get_source (registerSubclass reg cls) realm a =
      get_source reg realm a) ∧
    (∀ realm, get_enum (registerSubclass reg cls) realm =
      get_enum reg realm) ∧
    (∀ realm a c, get_source reg realm a = some c → c.«alias» ≠ "") := by
  have hr := registerSubclass_of_empty reg cls h
  refine ⟨hr, fun realm => by rw [hr], fun realm a => by rw [hr],
    fun realm => by rw [hr], fun realm a c hc he => ?_⟩
  have hw := reachable_storedWF hreach realm a c hc
  exact hw.2 (hw.1.symm.trans he)

theorem c4_empty_alias_never_appears_witness :
    registerSubclass [] SourceNoAlias = [] :=
  (c4_empty_alias_never_appears [] SourceNoAlias Reachable.init
    (by decide)).1

theorem enum_eq_of_nodup (reg : Registry) (realm : String)
    (hnd : ((get_sources reg realm).map Prod.fst).Nodup) :
    get_enum reg realm =
      some ((get_sources reg realm).map
        (fun p => { name := p.1, value := p.1, label := p.2.title })) := by
  unfold get_enum
  rw [if_pos]
  rw [List.map_map]
  exact hnd

/-- C5: for any reachable registry, `get_enum(realm)` succeeds and yields
one member per bucket entry, each member carrying the alias as value and
the registered definition's title as label; a realm without registrations
yields the empty enumeration; and each registered alias has exactly one
member. -/
theorem c5_enum_one_member_per_alias (reg : Registry) (realm : String)
    (hreach : Reachable reg) :
    get_enum reg realm =
      some ((get_sources reg realm).map
        (fun p => { name := p.1, value := p.1, label := p.2.title })) ∧
    (get_sources reg realm = [] → get_enum reg realm = some []) ∧
    (∀ a c, get_source reg realm a = some c →
      ∃ ms, get_enum reg realm = some ms ∧
        ms.countP (fun m => m.value == a) = 1 ∧
        ({ name := a, value := a, label := c.title } : EnumMember) ∈ ms) := by
  have hnd := reachable_bucketsNodup hreach realm
  have henum := enum_eq_of_nodup reg realm hnd
  refine ⟨henum, fun hempty => by rw [henum, hempty]; rfl,
    fun a c hc => ?_⟩
  refine ⟨_, henum, ?_, ?_⟩
  · rw [List.countP_map]
    exact countP_key_of_get _ _ c hnd hc
  · exact List.mem_map_of_mem _ (dictGet_mem hc)

theorem c5_enum_one_member_per_alias_witness :
    get_enum vacancyRegistry "vacancy" =
      some ((get_sources vacancyRegistry "vacancy").map
        (fun p => { name := p.1, value := p.1, label := p.2.title })) ∧
    (∃ ms, get_enum vacancyRegistry "vacancy" = some ms ∧
      ms.countP (fun m => m.value == "hh") = 1 ∧
      ({ name := "hh", value := "hh", label := SourceA.title } :
        EnumMember) ∈ ms) :=
  ⟨(c5_enum_one_member_per_alias vacancyRegistry "vacancy"
      vacancyRegistry_reachable).1,
   (c5_enum_one_member_per_alias vacancyRegistry "vacancy"
      vacancyRegistry_reachable).2.2 "hh" SourceA (by decide)⟩

/-- C6: calling `fetch_list` on the abstract base raises
`NotImplementedError`; calling it on any definition with a concrete
override never produces that particular error. -/
theorem c6_fetch_list_abstract_base :
    fetch_list RemoteSourceBase = FetchResult.notImplemented ∧
    ∀ cls impl, cls.fetchImpl = some impl →
      fetch_list cls ≠ FetchResult.notImplemented := by
  refine ⟨rfl, fun cls impl h => ?_⟩
  unfold fetch_list
  rw [h]
  cases impl <;> simp

theorem c6_fetch_list_abstract_base_witness :
    fetch_list SourceA ≠ FetchResult.notImplemented :=
  c6_fetch_list_abstract_base.2 SourceA (.ok []) rfl

theorem get_source_foldl_none (decls : List SourceDef) (reg : Registry)
    (realm a : String) (h0 : get_source reg realm a = none)
    (h : ∀ d ∈ decls, ¬(d.realm = realm ∧ d.«alias» = a)) :
    get_source (decls.foldl registerSubclass reg) realm a = none := by
  induction decls generalizing reg with
  | nil => exact h0
  | cons d rest ih =>
    rw [List.foldl_cons]
    refine ih _ ?_ (fun e he => h e (List.mem_cons_of_mem d he))
    by_cases ha : d.«alias» = ""
    · rw [registerSubclass_of_empty _ _ ha]
      exact h0
    · rw [get_source_register _ _ ha]
      rw [if_neg (fun hra => h d (List.mem_cons_self d rest)
        ⟨hra.1.symm, hra.2.symm⟩)]
      exact h0

theorem get_sources_foldl_empty (decls : List SourceDef) (reg : Registry)
    (realm : String) (h0 : get_sources reg realm = [])
    (h : ∀ d ∈ decls, d.realm ≠ realm) :
    get_sources (decls.foldl registerSubclass reg) realm = [] := by
  induction decls generalizing reg with
  | nil => exact h0
  | cons d rest ih =>
    rw [List.foldl_cons]
    refine ih _ ?_ (fun e he => h e (List.mem_cons_of_mem d he))
    by_cases ha : d.«alias» = ""
    · rw [registerSubclass_of_empty _ _ ha]
      exact h0
    · rw [get_sources_register _ _ ha,
        if_neg (Ne.symm (h d (List.mem_cons_self d rest)))]
      exact h0

/-- C7: a lookup for a (realm, alias) pair that no declaration in the
whole program run ever stored returns `none` rather than failing, and
`get_sources` of a realm no declaration targeted is the empty mapping. -/
theorem c7_lookup_miss_is_absent (decls : List SourceDef)
    (realm a : String) :
    ((∀ d ∈ decls, ¬(d.realm = realm ∧ d.«alias» = a)) →
      get_source (buildRegistry decls) realm a = none) ∧
    ((∀ d ∈ decls, d.realm ≠ realm) →
      get_sources (buildRegistry decls) realm = []) := by
  constructor
  · intro h
    exact get_source_foldl_none decls [] realm a rfl h
  · intro h
    exact get_sources_foldl_empty decls [] realm rfl h

theorem c7_lookup_miss_is_absent_witness :
    get_source (buildRegistry [SourceA, SourceB, SourceNoAlias]) "vacancy"
        "zzz" = none ∧
    get_sources (buildRegistry [SourceA, SourceB, SourceNoAlias])
        "event" = [] :=
  ⟨(c7_lookup_miss_is_absent [SourceA, SourceB, SourceNoAlias] "vacancy"
      "zzz").1 (by decide),
   (c7_lookup_miss_is_absent [SourceA, SourceB, SourceNoAlias] "event"
      "zzz").2 (by decide)⟩

/-- C8: in every reachable registry state the aliases of a realm bucket
are pairwise distinct, so the defensive duplicate-name check inside
`get_enum` never fires: `get_enum` never returns the failure value. -/
theorem c8_enum_uniqueness_check_unreachable (reg : Registry)
    (realm : String) (hreach : Reachable reg) :
    ((get_sources reg realm).map Prod.fst).Nodup ∧
    get_enum reg realm ≠ none := by
  have hnd := reachable_bucketsNodup hreach realm
  refine ⟨hnd, ?_⟩
  rw [enum_eq_of_nodup reg realm hnd]
  simp

theorem c8_enum_uniqueness_check_unreachable_witness :
    ((get_sources vacancyRegistry "vacancy").map Prod.fst).Nodup ∧
    get_enum vacancyRegistry "vacancy" ≠ none :=
  c8_enum_uniqueness_check_unreachable vacancyRegistry "vacancy"
    vacancyRegistry_reachable

/-- C9: registering a definition for one realm leaves every other realm
untouched: `get_sources` and `get_source` on any distinct realm return
exactly what they returned before the registration. -/
theorem c9_registration_frame (reg : Registry) (cls : SourceDef)
    (realm' : String) (h : realm' ≠ cls.realm) :
    get_sources (registerSubclass reg cls) realm' =
      get_sources reg realm' ∧
    ∀ a, get_source (registerSubclass reg cls) realm' a =
      get_source reg realm' a := by
  by_cases ha : cls.«alias» = ""
  · rw [registerSubclass_of_empty _ _ ha]
    exact ⟨rfl, fun a => rfl⟩
  · have hs := get_sources_register reg cls ha realm'
    rw [if_neg h] at hs
    refine ⟨hs, fun a => ?_⟩
    unfold get_source
    rw [hs]

theorem c9_registration_frame_witness :
    get_sources (registerSubclass [] SourceA) "event" =
      get_sources [] "event" ∧
    get_source (registerSubclass [] SourceA) "event" "hh" =
      get_source [] "event" "hh" :=
  ⟨(c9_registration_frame [] SourceA "event" (by decide)).1,
   (c9_registration_frame [] SourceA "event" (by decide)).2 "hh"⟩

/-- C10: a subclass of an already-registered concrete source that
overrides neither `alias` nor `realm` inherits both, re-registers the
same (realm, alias) pair without error, and silently replaces the parent:
`get_source` afterwards returns the new subclass, which is a different
class object than the parent. -/
theorem c10_inheriting_subclass_overwrites (reg : Registry)
    (P : SourceDef) (newId : Nat) (hA : P.«alias» ≠ "")
    (hId : newId ≠ P.clsId) :
    (inheritNoOverride P newId).realm = P.realm ∧
    (inheritNoOverride P newId).«alias» = P.«alias» ∧
    get_source
        (registerSubclass (registerSubclass reg P)
          (inheritNoOverride P newId)) P.realm P.«alias» =
      some (inheritNoOverride P newId) ∧
    inheritNoOverride P newId ≠ P := by
  refine ⟨rfl, rfl, ?_, fun he => hId (congrArg SourceDef.clsId he)⟩
  have hs := get_source_register (registerSubclass reg P)
    (inheritNoOverride P newId) hA P.realm P.«alias»
  rw [if_pos ⟨rfl, rfl⟩] at hs
  exact hs

theorem c10_inheriting_subclass_overwrites_witness :
    (inheritNoOverride SourceA 9).realm = SourceA.realm ∧
    (inheritNoOverride SourceA 9).«alias» = SourceA.«alias» ∧
    get_source
        (registerSubclass (registerSubclass [] SourceA)
          (inheritNoOverride SourceA 9)) SourceA.realm SourceA.«alias» =
      some (inheritNoOverride SourceA 9) ∧
    inheritNoOverride SourceA 9 ≠ SourceA :=
  c10_inheriting_subclass_overwrites [] SourceA 9 (by decide) (by decide)
